import Mathlib

/-!
Verification of the emulator core (guest-memory manager, ALU/shift/flag
primitives, and stack conventions) against its specification.

The ALU/shift templates of the source are instantiated at the unsigned
integer widths 8/16/32/64.  A value of the operand type `T` is embedded as a
`Nat` below `2 ^ bitSize w`.  The C++ expressions are translated including
the integral promotions: operands narrower than `int` (widths 8 and 16) are
promoted to the 32-bit signed `int` before any arithmetic, bitwise or shift
operator is applied, and literals such as the `1` in `1 << (b - 1)` have type
`int`.  A shift whose count is `≥` the promoted operand width, a shift of a
negative value to the left, or a left shift whose value is not representable
in the corresponding unsigned type is undefined behaviour; such cases are
embedded as `none`.  The conversion of an out-of-range value to a signed or
unsigned integer type is embedded as two's-complement wrap-around (for
unsigned types this is what the standard prescribes; for signed types it is
implementation-defined and is what every mainstream compiler does, likewise
the arithmetic right shift of a negative `int`).
-/

namespace emu

/-- The four register widths the spec requires the width-generic ALU
primitives to serve. -/
inductive Width
  | w8
  | w16
  | w32
  | w64
deriving DecidableEq

/-- `bitSize<T> = T(sizeof(T) * 8)` from the source, as the number of bits. -/
def bitSize : Width → Nat
  | .w8 => 8
  | .w16 => 16
  | .w32 => 32
  | .w64 => 64

/-- Width at which C++ evaluates arithmetic on operands of type `T`:
widths below `int` are promoted to the 32-bit `int`. -/
def commonBits (w : Width) : Nat := max (bitSize w) 32

/-- The processor status flags held by the CPSR collaborator. -/
structure Flags where
  carry : Bool
  zero : Bool
  negative : Bool
  overflow : Bool
deriving DecidableEq

/-- An all-clear flags value, used as a concrete starting point. -/
def flags0 : Flags := ⟨false, false, false, false⟩

/-- Modelled from the spec: `CPSR::setCodes` (the CPSR class is not under
src/) derives zero and negative only: zero iff the result is 0, negative iff
the sign bit of the result is set, width-dependent (spec section 4.3). -/
def setCodes (w : Width) (f : Flags) (c : Nat) : Flags :=
  { f with zero := decide (c = 0), negative := c.testBit (bitSize w - 1) }

/-- Modelled from the spec: `CPSR::setALU<borrow>` (not under src/) derives
the full flag set from the operand/result triple: carry is the unsigned
carry-out of `a + b` (with the source's convention of passing the negated
subtrahend, this is exactly the no-borrow condition when `borrow` is set),
zero and negative from the result, and overflow by the standard
two's-complement rule: the operands share a sign that differs from the
result's sign (spec sections 3 and 4.3).  The `borrow` marker only changes
the reading of carry (no-borrow vs carry-out), not the numeric rule. -/
def setALU (w : Width) (_borrow : Bool) (_f : Flags) (a b c : Nat) : Flags :=
  { carry := decide (2 ^ bitSize w ≤ a + b),
    zero := decide (c = 0),
    negative := c.testBit (bitSize w - 1),
    overflow := decide (a.testBit (bitSize w - 1) = b.testBit (bitSize w - 1) ∧
      ¬ (c.testBit (bitSize w - 1) = a.testBit (bitSize w - 1))) }

/-- Value of the C++ expression `1 << s` where `1` has type `int`
(32-bit).  Undefined for a count `≥ 32`; for `s = 31` the mathematically
exact value `2^31` is representable in `unsigned int`, so the shift itself is
defined, and its conversion back to `int` wraps to `-2^31`. -/
def oneShl (s : Nat) : Option Int :=
  if 32 ≤ s then none
  else if 2 ^ s < 2 ^ 31 then some ((2 ^ s : Nat) : Int)
  else some (((2 ^ s : Nat) : Int) - 2 ^ 32)

/-- Conversion of an `int` value to an unsigned type of `w` bits
(two's-complement wrap). -/
def wrapU (w : Nat) (x : Int) : Nat := (x % ((2 ^ w : Nat) : Int)).toNat

/-- The flag update `cpsr.carry(a & (1 << (b - 1)))` shared by the LSR, ASR
and ROR templates, guarded by `if (b)`.  The literal `1` is an `int`, so the
mask is computed at 32-bit width and converted to the common type of the
`&`; carry is set iff the masked value is nonzero. -/
def carryMaskFlags (w : Width) (f : Flags) (a b : Nat) : Option Flags :=
  if b ≠ 0 then
    (oneShl (b - 1)).map fun m => { f with carry := decide (a &&& wrapU (commonBits w) m ≠ 0) }
  else some f

/-- `sign<T> = T(1 << (bitSize<T> - 1))` from the source.  The shift is again
an `int` shift: at width 64 the count 63 exceeds the width of `int`, which is
undefined behaviour inside a constant expression, so `sign<u64>` does not
compile at all — embedded as `none`. -/
def signConst (w : Width) : Option Nat :=
  (oneShl (bitSize w - 1)).map fun m => wrapU (bitSize w) m

/-- Value of `sign<T> >> s`: for widths 8/16 the sign constant is promoted to
`int` (a small positive value), for widths 32/64 the shift happens on the
unsigned type; in both cases a count `≥` the promoted width is undefined. -/
def signShr (w : Width) (s : Nat) : Option Nat :=
  match signConst w with
  | none => none
  | some sc => if s < commonBits w then some (sc / 2 ^ s) else none

/-- Value of `T(a << b)` for a `T`-value `a`: for widths 8/16 the shift is an
`int` shift (count must be `< 32` and the product representable in
`unsigned int`), for widths 32/64 an unsigned shift (count `< width`); the
result is converted back to `T`, i.e. reduced `mod 2 ^ width`. -/
def cxxShl (w : Width) (a b : Nat) : Option Nat :=
  if bitSize w < 32 then
    if b < 32 ∧ a * 2 ^ b < 2 ^ 32 then some ((a * 2 ^ b) % 2 ^ bitSize w) else none
  else
    if b < bitSize w then some ((a * 2 ^ b) % 2 ^ bitSize w) else none

/-- Value of `T(a >> b)` for a `T`-value `a` (nonnegative after promotion):
defined when the count is below the promoted width. -/
def cxxUShr (w : Width) (a b : Nat) : Option Nat :=
  if b < commonBits w then some (a / 2 ^ b) else none

/-- Value of `T(~(~a >> b))` for a `T`-value `a`.  For widths 8/16 the `~`
is applied to the promoted `int`, giving the negative value `-(a+1)`, the
right shift of that negative value is the (implementation-defined, in
practice arithmetic) floor shift, and the final `~` and conversion to `T`
wrap; for widths 32/64 everything stays on the unsigned type. -/
def cxxAsrNeg (w : Width) (a b : Nat) : Option Nat :=
  if bitSize w < 32 then
    if b < 32 then some (wrapU (bitSize w) (-(Int.fdiv (-((a : Int) + 1)) (2 ^ b)) - 1))
    else none
  else
    if b < bitSize w then some (2 ^ bitSize w - 1 - (2 ^ bitSize w - 1 - a) / 2 ^ b)
    else none

/-- Value of `T((a >> b) | (a << (bitSize<T> - b)))` for a `T`-value `a`.
For widths 8/16 the subtraction `bitSize<T> - b` happens on `int` and is
negative for `b > bitSize` (an undefined shift count); for widths 32/64 it
happens on the unsigned type, so `b = 0` gives a shift by the full operand
width and `b > bitSize` a huge wrapped count, both undefined. -/
def rorVal (w : Width) (a b : Nat) : Option Nat :=
  if bitSize w < 32 then
    if b ≤ bitSize w then some ((a / 2 ^ b ||| a * 2 ^ (bitSize w - b)) % 2 ^ bitSize w)
    else none
  else
    if 1 ≤ b ∧ b < bitSize w then some (a / 2 ^ b ||| (a * 2 ^ (bitSize w - b)) % 2 ^ bitSize w)
    else none

/-- `lsl` from the source: carry takes `a & (sign<T> >> (b - 1))` when `b`
is nonzero, the result is `a << b`, then `setCodes`.  Instantiating the
flag-setting statement requires `sign<T>` to compile even when `b = 0`. -/
def lslCarryFlags (w : Width) (f : Flags) (a b : Nat) : Option Flags :=
  match signConst w with
  | none => none
  | some _ =>
    if b ≠ 0 then
      (signShr w (b - 1)).map fun m => { f with carry := decide (a &&& m ≠ 0) }
    else some f

/-- `lsl` (logical shift left) from the source. -/
def lsl (w : Width) (S : Bool) (f : Flags) (a b : Nat) : Option (Nat × Flags) :=
  match (if S then lslCarryFlags w f a b else some f), cxxShl w a b with
  | some fl, some c => some (c, if S then setCodes w fl c else fl)
  | _, _ => none

/-- `lsr` (logical shift right) from the source. -/
def lsr (w : Width) (S : Bool) (f : Flags) (a b : Nat) : Option (Nat × Flags) :=
  match (if S then carryMaskFlags w f a b else some f), cxxUShr w a b with
  | some fl, some c => some (c, if S then setCodes w fl c else fl)
  | _, _ => none

/-- `asr` (arithmetic shift right) from the source:
`T c = a & sign<T> ? ~(~a >> b) : a >> b;` — the condition mentions
`sign<T>` outside any `if constexpr`, so every instantiation needs it. -/
def asr (w : Width) (S : Bool) (f : Flags) (a b : Nat) : Option (Nat × Flags) :=
  match (if S then carryMaskFlags w f a b else some f), signConst w with
  | some fl, some sc =>
    match (if a &&& sc ≠ 0 then cxxAsrNeg w a b else cxxUShr w a b) with
    | some c => some (c, if S then setCodes w fl c else fl)
    | none => none
  | _, _ => none

/-- `ror` (rotate right) from the source. -/
def ror (w : Width) (S : Bool) (f : Flags) (a b : Nat) : Option (Nat × Flags) :=
  match (if S then carryMaskFlags w f a b else some f), rorVal w a b with
  | some fl, some c => some (c, if S then setCodes w fl c else fl)
  | _, _ => none

/-- `add` from the source: `T c = a + b; setALU<false>(a, b, c)`.  Wrap-around
addition is defined at every width (the promoted sum always fits in `int`
for widths 8/16 and unsigned arithmetic wraps for widths 32/64). -/
def add (w : Width) (S : Bool) (f : Flags) (a b : Nat) : Nat × Flags :=
  let c := (a + b) % 2 ^ bitSize w
  (c, if S then setALU w false f a b c else f)

/-- Value of `T(-Signed_v<T>(b))` from `sub`.  At widths 8/16 the signed
value is promoted to `int` before negation, which is therefore always
defined; at widths 32/64 negating the most negative value `2^(width-1)` is
signed overflow, i.e. undefined behaviour. -/
def negSignedT (w : Width) (b : Nat) : Option Nat :=
  if bitSize w < 32 then some ((2 ^ bitSize w - b) % 2 ^ bitSize w)
  else if b = 2 ^ (bitSize w - 1) then none
  else some ((2 ^ bitSize w - b) % 2 ^ bitSize w)

/-- `sub` from the source: `T c = a - b; setALU<true>(a, T(-Signed_v<T>(b)), c)`
— the flag computation receives the negated subtrahend. -/
def sub (w : Width) (S : Bool) (f : Flags) (a b : Nat) : Option (Nat × Flags) :=
  let c := (a + (2 ^ bitSize w - b)) % 2 ^ bitSize w
  if S then (negSignedT w b).map fun nb => (c, setALU w true f a nb c)
  else some (c, f)

/-- `sbcFrom` from the source: remember `c = a`, then `a -= b`, decrement
once more if the carry flag is set, and call `setALU<true>(c, b, a)` — note
that here `b` is passed as-is, not negated. -/
def sbcFrom (w : Width) (S : Bool) (f : Flags) (a b : Nat) : Nat × Flags :=
  let c := a
  let a1 := (a + (2 ^ bitSize w - b)) % 2 ^ bitSize w
  let a2 := if f.carry then (a1 + (2 ^ bitSize w - 1)) % 2 ^ bitSize w else a1
  (a2, if S then setALU w true f c b a2 else f)

/-- `adcTo` from the source: remember `c = a`, then `a += b`, increment once
more if the carry flag is set, and call `setALU<false>(c, b, a)`. -/
def adcTo (w : Width) (S : Bool) (f : Flags) (a b : Nat) : Nat × Flags :=
  let c := a
  let a1 := (a + b) % 2 ^ bitSize w
  let a2 := if f.carry then (a1 + 1) % 2 ^ bitSize w else a1
  (a2, if S then setALU w false f c b a2 else f)

/-- What `sbcFrom` would be under the claim's words — the same `b`-negated
flag convention as plain `sub`, i.e. `setALU<true>` receives
`T(-Signed_v<T>(b))` instead of `b`.  Stated for comparison with the
source's `sbcFrom`. -/
def sbcFromNegatedConvention (w : Width) (S : Bool) (f : Flags) (a b : Nat) : Nat × Flags :=
  let c := a
  let a1 := (a + (2 ^ bitSize w - b)) % 2 ^ bitSize w
  let a2 := if f.carry then (a1 + (2 ^ bitSize w - 1)) % 2 ^ bitSize w else a1
  (a2, if S then setALU w true f c ((2 ^ bitSize w - b) % 2 ^ bitSize w) a2 else f)

/-- Result component of a possibly-undefined ALU outcome. -/
def resOf (r : Option (Nat × Flags)) : Option Nat := r.map Prod.fst

/-- Carry component of a possibly-undefined ALU outcome. -/
def carryOf (r : Option (Nat × Flags)) : Option Bool := r.map fun p => p.2.carry

theorem and_pow_ne (a i : Nat) : decide (a &&& 2 ^ i ≠ 0) = a.testBit i := by
  cases h : a.testBit i <;>
    simp [Nat.and_two_pow, h, Nat.pos_iff_ne_zero.mp (Nat.two_pow_pos i)]

theorem wrapU_ofNat (w x : Nat) (h : x < 2 ^ w) : wrapU w (x : Int) = x := by
  unfold wrapU
  rw [Int.emod_eq_of_lt (by positivity) (by exact_mod_cast h)]
  simp

theorem oneShl_small (s : Nat) (h : s < 31) : oneShl s = some ((2 ^ s : Nat) : Int) := by
  unfold oneShl
  rw [if_neg (by omega), if_pos (Nat.pow_lt_pow_right (by norm_num) h)]

theorem commonBits_ge (w : Width) : 32 ≤ commonBits w := le_max_right _ _

theorem carryMaskFlags_spec (w : Width) (f : Flags) (a b : Nat) (hb : b ≠ 0) (h31 : b - 1 < 31) :
    carryMaskFlags w f a b = some { f with carry := a.testBit (b - 1) } := by
  unfold carryMaskFlags
  rw [if_pos hb, oneShl_small _ h31, Option.map_some']
  rw [wrapU_ofNat _ _ (lt_of_lt_of_le (Nat.pow_lt_pow_right (by norm_num) (by omega))
    (Nat.pow_le_pow_right (by norm_num) (commonBits_ge w)))]
  rw [and_pow_ne]

theorem signConst_spec (w : Width) (hw : w ≠ Width.w64) :
    signConst w = some (2 ^ (bitSize w - 1)) := by
  cases w
  · decide
  · decide
  · decide
  · exact absurd rfl hw

theorem cxxUShr_spec (w : Width) (a b : Nat) (hb : b < 32) :
    cxxUShr w a b = some (a / 2 ^ b) := by
  unfold cxxUShr
  rw [if_pos (lt_of_lt_of_le hb (commonBits_ge w))]

theorem signShr_spec (w : Width) (hw : w ≠ Width.w64) (b : Nat) (hb0 : 0 < b)
    (hbw : b < bitSize w) (hbits : bitSize w ≤ 32) :
    signShr w (b - 1) = some (2 ^ (bitSize w - b)) := by
  simp only [signShr, signConst_spec w hw]
  rw [if_pos (lt_of_lt_of_le (by omega) (commonBits_ge w))]
  rw [Nat.pow_div (by omega) (by norm_num)]
  have he : bitSize w - 1 - (b - 1) = bitSize w - b := by omega
  rw [he]

theorem cxxShl_spec (w : Width) (a b : Nat) (hbits : bitSize w ≤ 32)
    (ha : a < 2 ^ bitSize w) (hb : b < bitSize w) :
    cxxShl w a b = some ((a * 2 ^ b) % 2 ^ bitSize w) := by
  unfold cxxShl
  rcases lt_or_ge (bitSize w) 32 with h | h
  · have hrep : a * 2 ^ b < 2 ^ 32 := by
      have h2 : 2 ^ b ≤ 2 ^ bitSize w := Nat.pow_le_pow_right (by norm_num) (by omega)
      have h3 : a * 2 ^ b < 2 ^ bitSize w * 2 ^ bitSize w :=
        Nat.mul_lt_mul_of_lt_of_le ha h2 (Nat.two_pow_pos _)
      have h4 : 2 ^ bitSize w * 2 ^ bitSize w = 2 ^ (bitSize w + bitSize w) := by
        rw [Nat.pow_add]
      have h5 : bitSize w + bitSize w ≤ 32 := by
        cases w
        · decide
        · decide
        · exact absurd h (by decide)
        · exact absurd h (by decide)
      calc a * 2 ^ b < 2 ^ (bitSize w + bitSize w) := h4 ▸ h3
        _ ≤ 2 ^ 32 := Nat.pow_le_pow_right (by norm_num) h5
    rw [if_pos h, if_pos ⟨by omega, hrep⟩]
  · rw [if_neg (by omega), if_pos hb]

theorem lor_mod_two_pow_right (x y w : Nat) (hx : x < 2 ^ w) :
    x ||| y % 2 ^ w = (x ||| y) % 2 ^ w := by
  apply Nat.eq_of_testBit_eq
  intro i
  simp only [Nat.testBit_or, Nat.testBit_mod_two_pow]
  rcases lt_or_ge i w with h | h
  · simp [h]
  · have hx' : x.testBit i = false :=
      Nat.testBit_lt_two_pow (lt_of_lt_of_le hx (Nat.pow_le_pow_right (by norm_num) h))
    simp [hx', show ¬ i < w by omega]

theorem lor_mul_pow_mod (a w : Nat) (ha : a < 2 ^ w) : (a ||| a * 2 ^ w) % 2 ^ w = a := by
  apply Nat.eq_of_testBit_eq
  intro i
  rw [← Nat.shiftLeft_eq]
  simp only [Nat.testBit_mod_two_pow, Nat.testBit_or, Nat.testBit_shiftLeft]
  rcases lt_or_ge i w with h | h
  · simp [h, show ¬ i ≥ w by omega]
  · have hx' : a.testBit i = false :=
      Nat.testBit_lt_two_pow (lt_of_lt_of_le ha (Nat.pow_le_pow_right (by norm_num) h))
    simp [hx', show ¬ i < w by omega]

theorem rorVal_spec (w : Width) (a b : Nat) (hw : w ≠ Width.w64) (ha : a < 2 ^ bitSize w)
    (hb0 : 0 < b) (hbw : b < bitSize w) :
    rorVal w a b = some ((a / 2 ^ b ||| a * 2 ^ (bitSize w - b)) % 2 ^ bitSize w) := by
  unfold rorVal
  rcases lt_or_ge (bitSize w) 32 with h | h
  · rw [if_pos h, if_pos (by omega)]
  · have h32 : bitSize w = 32 := by
      cases w
      · simp [bitSize] at h
      · simp [bitSize] at h
      · rfl
      · exact absurd rfl hw
    rw [if_neg (by omega), if_pos ⟨hb0, hbw⟩,
      lor_mod_two_pow_right _ _ _ (lt_of_le_of_lt (Nat.div_le_self a _) ha)]

theorem cxxAsrNeg_zero (w : Width) (a : Nat) (hbits : bitSize w ≤ 32) (ha : a < 2 ^ bitSize w) :
    cxxAsrNeg w a 0 = some a := by
  unfold cxxAsrNeg
  rcases lt_or_ge (bitSize w) 32 with h | h
  · rw [if_pos h, if_pos (by norm_num)]
    have hv : (-(Int.fdiv (-((a : Int) + 1)) (2 ^ 0)) - 1) = (a : Int) := by
      simp [Int.fdiv_one]
    rw [hv, wrapU_ofNat _ _ ha]
  · rw [if_neg (by omega), if_pos (by omega)]
    congr 1
    simp only [pow_zero, Nat.div_one]
    omega

theorem bitSize_le_32 (w : Width) (hw : w ≠ Width.w64) : bitSize w ≤ 32 := by
  cases w
  · decide
  · decide
  · decide
  · exact absurd rfl hw

theorem lsl_spec (w : Width) (hw : w ≠ Width.w64) (f : Flags) (a b : Nat)
    (ha : a < 2 ^ bitSize w) (hb0 : 0 < b) (hbw : b < bitSize w) :
    lsl w true f a b = some ((a * 2 ^ b) % 2 ^ bitSize w,
      ⟨a.testBit (bitSize w - b), decide ((a * 2 ^ b) % 2 ^ bitSize w = 0),
        ((a * 2 ^ b) % 2 ^ bitSize w).testBit (bitSize w - 1), f.overflow⟩) := by
  have hbits : bitSize w ≤ 32 := bitSize_le_32 w hw
  simp only [lsl, lslCarryFlags, signConst_spec w hw,
    signShr_spec w hw b hb0 hbw hbits, cxxShl_spec w a b hbits ha hbw,
    Option.map_some']
  rw [if_pos (by omega : b ≠ 0), and_pow_ne]
  rfl

theorem lsr_spec (w : Width) (f : Flags) (a b : Nat) (hb0 : 0 < b) (hb32 : b < 32) :
    lsr w true f a b = some (a / 2 ^ b,
      ⟨a.testBit (b - 1), decide (a / 2 ^ b = 0),
        (a / 2 ^ b).testBit (bitSize w - 1), f.overflow⟩) := by
  simp only [lsr, carryMaskFlags_spec w f a b (by omega) (by omega),
    cxxUShr_spec w a b hb32]
  rfl

theorem ror_spec (w : Width) (hw : w ≠ Width.w64) (f : Flags) (a b : Nat)
    (ha : a < 2 ^ bitSize w) (hb0 : 0 < b) (hbw : b < bitSize w) :
    ror w true f a b = some ((a / 2 ^ b ||| a * 2 ^ (bitSize w - b)) % 2 ^ bitSize w,
      ⟨a.testBit (b - 1), decide ((a / 2 ^ b ||| a * 2 ^ (bitSize w - b)) % 2 ^ bitSize w = 0),
        ((a / 2 ^ b ||| a * 2 ^ (bitSize w - b)) % 2 ^ bitSize w).testBit (bitSize w - 1),
        f.overflow⟩) := by
  have hbits : bitSize w ≤ 32 := bitSize_le_32 w hw
  simp only [ror, carryMaskFlags_spec w f a b (by omega) (by omega),
    rorVal_spec w a b hw ha hb0 hbw]
  rfl

theorem lsl_zero_spec (w : Width) (hw : w ≠ Width.w64) (f : Flags) (a : Nat)
    (ha : a < 2 ^ bitSize w) :
    lsl w true f a 0 = some (a, ⟨f.carry, decide (a = 0),
      a.testBit (bitSize w - 1), f.overflow⟩) := by
  have hbits : bitSize w ≤ 32 := bitSize_le_32 w hw
  have hb : (0 : Nat) < bitSize w := by cases w <;> decide
  simp only [lsl, lslCarryFlags, signConst_spec w hw, cxxShl_spec w a 0 hbits ha hb]
  rw [if_neg (show ¬ ((0 : Nat) ≠ 0) by omega)]
  simp only [pow_zero, Nat.mul_one, Nat.mod_eq_of_lt ha]
  rfl

theorem lsr_zero_spec (w : Width) (f : Flags) (a : Nat) :
    lsr w true f a 0 = some (a, ⟨f.carry, decide (a = 0),
      a.testBit (bitSize w - 1), f.overflow⟩) := by
  simp only [lsr, carryMaskFlags, cxxUShr_spec w a 0 (by norm_num)]
  rw [if_neg (show ¬ ((0 : Nat) ≠ 0) by omega)]
  simp only [pow_zero, Nat.div_one]
  rfl

theorem asr_zero_spec (w : Width) (hw : w ≠ Width.w64) (f : Flags) (a : Nat)
    (ha : a < 2 ^ bitSize w) :
    asr w true f a 0 = some (a, ⟨f.carry, decide (a = 0),
      a.testBit (bitSize w - 1), f.overflow⟩) := by
  have hbits : bitSize w ≤ 32 := bitSize_le_32 w hw
  simp only [asr, carryMaskFlags, signConst_spec w hw, cxxAsrNeg_zero w a hbits ha,
    cxxUShr_spec w a 0 (by norm_num)]
  rw [if_neg (show ¬ ((0 : Nat) ≠ 0) by omega)]
  simp only [pow_zero, Nat.div_one, ite_self]
  rfl

theorem ror_zero_small_spec (w : Width) (f : Flags) (a : Nat)
    (hbits : bitSize w ≤ 16) (ha : a < 2 ^ bitSize w) :
    ror w true f a 0 = some (a, ⟨f.carry, decide (a = 0),
      a.testBit (bitSize w - 1), f.overflow⟩) := by
  simp only [ror, carryMaskFlags, rorVal]
  rw [if_neg (show ¬ ((0 : Nat) ≠ 0) by omega),
    if_pos (by omega : bitSize w < 32), if_pos (Nat.zero_le _)]
  simp only [pow_zero, Nat.div_one, Nat.sub_zero]
  rw [lor_mul_pow_mod a _ ha]
  rfl

/-- The amended form of claim C4, as one proposition: at widths 8/16/32, for
`0 < b < width`, LSL sets carry to bit `width - b` of `a`, LSR and ROR set
carry to bit `b - 1` of `a`, and zero/negative are derived from the result;
shifting by zero leaves carry unchanged for LSL, LSR and ASR at these
widths, and for ROR only at widths 8/16 (at width 32 a rotate by zero is an
undefined full-width shift, see the counterexample). -/
def shiftCarryProp (w : Width) (f : Flags) (a b : Nat) : Prop :=
  lsl w true f a b = some ((a * 2 ^ b) % 2 ^ bitSize w,
    ⟨a.testBit (bitSize w - b), decide ((a * 2 ^ b) % 2 ^ bitSize w = 0),
      ((a * 2 ^ b) % 2 ^ bitSize w).testBit (bitSize w - 1), f.overflow⟩) ∧
  lsr w true f a b = some (a / 2 ^ b,
    ⟨a.testBit (b - 1), decide (a / 2 ^ b = 0),
      (a / 2 ^ b).testBit (bitSize w - 1), f.overflow⟩) ∧
  ror w true f a b = some ((a / 2 ^ b ||| a * 2 ^ (bitSize w - b)) % 2 ^ bitSize w,
    ⟨a.testBit (b - 1), decide ((a / 2 ^ b ||| a * 2 ^ (bitSize w - b)) % 2 ^ bitSize w = 0),
      ((a / 2 ^ b ||| a * 2 ^ (bitSize w - b)) % 2 ^ bitSize w).testBit (bitSize w - 1),
      f.overflow⟩) ∧
  lsl w true f a 0 = some (a, ⟨f.carry, decide (a = 0),
    a.testBit (bitSize w - 1), f.overflow⟩) ∧
  lsr w true f a 0 = some (a, ⟨f.carry, decide (a = 0),
    a.testBit (bitSize w - 1), f.overflow⟩) ∧
  asr w true f a 0 = some (a, ⟨f.carry, decide (a = 0),
    a.testBit (bitSize w - 1), f.overflow⟩) ∧
  (bitSize w ≤ 16 → ror w true f a 0 = some (a, ⟨f.carry, decide (a = 0),
    a.testBit (bitSize w - 1), f.overflow⟩))

/-- C4 (counterexample): the claim says that for `b = 0` the carry flag is
left unchanged by all shift/rotate operations at every supported width, but
at 32 bits `ror` computes `a << (bitSize - 0)`, a shift by the full operand
width, which is undefined behaviour — there is no defined outcome whose
carry could equal the old carry. -/
theorem C4_ror32_shift_zero_counterexample :
    carryOf (ror Width.w32 true flags0 5 0) ≠ some flags0.carry := by decide

/-- C4 (amended): at widths 8/16/32 the claimed carry semantics of
LSL/LSR/ROR hold for `0 < b < width` and zero/negative are derived from the
result; a zero shift leaves carry unchanged for LSL/LSR/ASR at these widths
and for ROR at widths 8/16. -/
theorem C4_amended_shift_carry (w : Width) (hw : w ≠ Width.w64) (f : Flags) (a b : Nat)
    (ha : a < 2 ^ bitSize w) (hb0 : 0 < b) (hbw : b < bitSize w) :
    shiftCarryProp w f a b :=
  ⟨lsl_spec w hw f a b ha hb0 hbw,
   lsr_spec w f a b hb0 (lt_of_lt_of_le hbw (bitSize_le_32 w hw)),
   ror_spec w hw f a b ha hb0 hbw,
   lsl_zero_spec w hw f a ha,
   lsr_zero_spec w f a,
   asr_zero_spec w hw f a ha,
   fun hb16 => ror_zero_small_spec w f a hb16 ha⟩

/-- C4 (witness): the amended claim at width 8, `a = 0x81`, `b = 1` — in
particular the spec's own vector LSL(0x81,1) = 0x02 with carry set. -/
theorem C4_amended_shift_carry_witness : shiftCarryProp Width.w8 flags0 129 1 :=
  C4_amended_shift_carry Width.w8 (by decide) flags0 129 1 (by decide) (by decide) (by decide)

/-- C5: the spec expects ASR(0x80, 4) at 8 bits to yield 0xF8 (sign
extension) with carry = bit 3 of the input = 0.  The code instead yields
0x08: at widths below `int`, `~a` is computed on the promoted `int`, and
`~(~a >> b)` truncated back to 8 bits equals the logical shift `a >> b`, so
the 8/16-bit instantiations never sign-extend, contradicting the source's
own comment `Shift right, maintain sign`. -/
theorem C5_asr8_no_sign_extension :
    asr Width.w8 true flags0 0x80 4 = some (0x08, ⟨false, false, false, false⟩) ∧
    resOf (asr Width.w8 true flags0 0x80 4) ≠ some 0xF8 := by decide

/-- The amended form of claim C6, as one proposition: the two 8-bit vectors
hold; plain `add` computes `a + b (mod 2^width)` with carry-out, zero,
negative and the standard shared-sign overflow rule; plain `sub` (where the
flag computation is defined) computes `a - b (mod 2^width)` with the same
rules applied to the negated subtrahend. -/
def addSubProp (w : Width) (f : Flags) (a b : Nat) : Prop :=
  add Width.w8 true flags0 127 1 = (128, ⟨false, false, true, true⟩) ∧
  sub Width.w8 true flags0 0 1 = some (255, ⟨false, false, true, false⟩) ∧
  add w true f a b = ((a + b) % 2 ^ bitSize w,
    ⟨decide (2 ^ bitSize w ≤ a + b), decide ((a + b) % 2 ^ bitSize w = 0),
      ((a + b) % 2 ^ bitSize w).testBit (bitSize w - 1),
      decide (a.testBit (bitSize w - 1) = b.testBit (bitSize w - 1) ∧
        ¬ (((a + b) % 2 ^ bitSize w).testBit (bitSize w - 1) =
          a.testBit (bitSize w - 1)))⟩) ∧
  sub w true f a b = some ((a + (2 ^ bitSize w - b)) % 2 ^ bitSize w,
    ⟨decide (2 ^ bitSize w ≤ a + (2 ^ bitSize w - b) % 2 ^ bitSize w),
      decide ((a + (2 ^ bitSize w - b)) % 2 ^ bitSize w = 0),
      ((a + (2 ^ bitSize w - b)) % 2 ^ bitSize w).testBit (bitSize w - 1),
      decide (a.testBit (bitSize w - 1) =
          ((2 ^ bitSize w - b) % 2 ^ bitSize w).testBit (bitSize w - 1) ∧
        ¬ (((a + (2 ^ bitSize w - b)) % 2 ^ bitSize w).testBit (bitSize w - 1) =
          a.testBit (bitSize w - 1)))⟩)

/-- C6 (counterexample): the claim says the plain sub form computes
`a - b mod 2^width` (with flags) at every width; at width 32 with
`b = 0x80000000` the flag path negates the most negative signed value,
which is undefined behaviour, so no result is produced at all. -/
theorem C6_sub_most_negative_counterexample :
    resOf (sub Width.w32 true flags0 0 2147483648) ≠ some 2147483648 := by decide

/-- C6 (amended): the 8-bit ADD/SUB vectors hold as stated, and the general
mod-2^width result and flag formulas hold — for `sub` whenever the negation
of the subtrahend is defined (always at widths 8/16; `b ≠ 2^(width-1)` at
widths 32/64). -/
theorem C6_amended_add_sub_flags (w : Width) (f : Flags) (a b : Nat)
    (hexc : bitSize w < 32 ∨ b ≠ 2 ^ (bitSize w - 1)) : addSubProp w f a b := by
  have hng : negSignedT w b = some ((2 ^ bitSize w - b) % 2 ^ bitSize w) := by
    unfold negSignedT
    split_ifs with h1 h2
    · rfl
    · rcases hexc with h | h
      · exact absurd h h1
      · exact absurd h2 h
    · rfl
  refine ⟨by decide, by decide, rfl, ?_⟩
  simp only [sub, hng, Option.map_some']
  rfl

/-- C6 (witness): the amended claim at width 8 with the spec's ADD vector
operands `a = 0x7F`, `b = 0x01`. -/
theorem C6_amended_add_sub_flags_witness : addSubProp Width.w8 flags0 127 1 :=
  C6_amended_add_sub_flags Width.w8 flags0 127 1 (Or.inl (by decide))

/-- C7 (counterexample): the claim says SBC's flag computation follows the
same `b`-negated convention as plain SUB; the source's `sbcFrom` passes the
raw `b` to `setALU`, and at `a = 5`, `b = 3`, carry clear, the two
conventions disagree on the carry flag (the negated convention yields
carry = 1, no borrow; the code yields carry = 0). -/
theorem C7_sbc_convention_counterexample :
    (sbcFrom Width.w8 true flags0 5 3).2 ≠
      (sbcFromNegatedConvention Width.w8 true flags0 5 3).2 := by decide

/-- The amended form of claim C7, as one proposition: ADC and SBC adjust the
plain sum/difference by `+1`/`-1` exactly when the carry flag is set, in one
combined mod-2^width result, and compute the flags from the pre-adjustment
first operand, the raw (un-negated) second operand, and the final result. -/
def adcSbcProp (w : Width) (f : Flags) (a b : Nat) : Prop :=
  sbcFrom w true f a b =
    ((a + (2 ^ bitSize w - b) + (if f.carry then 2 ^ bitSize w - 1 else 0)) % 2 ^ bitSize w,
      setALU w true f a b
        ((a + (2 ^ bitSize w - b) + (if f.carry then 2 ^ bitSize w - 1 else 0)) % 2 ^ bitSize w)) ∧
  adcTo w true f a b =
    ((a + b + (if f.carry then 1 else 0)) % 2 ^ bitSize w,
      setALU w false f a b ((a + b + (if f.carry then 1 else 0)) % 2 ^ bitSize w))

/-- C7 (amended): ADC/SBC adjust by the carry flag and derive flags via
`setALU` from the pre-adjustment operand pair — with SBC passing `b`
un-negated, unlike plain SUB. -/
theorem C7_amended_adc_sbc_flags (w : Width) (f : Flags) (a b : Nat) :
    adcSbcProp w f a b := by
  constructor
  · cases hc : f.carry
    · simp [sbcFrom, hc]
    · simp [sbcFrom, hc, Nat.mod_add_mod]
  · cases hc : f.carry
    · simp [adcTo, hc]
    · simp [adcTo, hc, Nat.mod_add_mod]

/-- C7 (witness): the amended ADC/SBC contract at width 8, `a = 5`,
`b = 3`, carry clear. -/
theorem C7_amended_adc_sbc_flags_witness : adcSbcProp Width.w8 flags0 5 3 :=
  C7_amended_adc_sbc_flags Width.w8 flags0 5 3

/-- One byte written into a byte store (stores are byte-granular on the
host; a stored value is reduced to a byte). -/
def storeByte (m : Nat → Nat) (a v : Nat) : Nat → Nat :=
  fun x => if x = a then v % 256 else m x

/-- Little-endian store of the low `n` bytes of `v` at addresses
`a, a+1, …, a+n-1` (the host is little-endian). -/
def writeLE (m : Nat → Nat) (a n v : Nat) : Nat → Nat :=
  match n with
  | 0 => m
  | Nat.succ k => writeLE (storeByte m a v) (a + 1) k (v / 256)

/-- Little-endian load of `n` bytes starting at `a`. -/
def readLE (m : Nat → Nat) (a n : Nat) : Nat :=
  match n with
  | 0 => 0
  | Nat.succ k => m a % 256 + 256 * readLE m (a + 1) k

/-- `MemoryRange<AddressType>` from the source, addresses embedded as `Nat`
and the `Buffer initMemory` as a byte list.  Field order follows the
source's member declarations. -/
structure MemoryRange where
  name : String
  altName : String
  initMemory : List Nat
  start : Nat
  size : Nat
  write : Bool
  allocate : Bool
deriving DecidableEq

/-- `MemoryRange::end()` from the source: `usz(start) + size`. -/
def MemoryRange.endAddr (r : MemoryRange) : Nat := r.start + r.size

/-- `ProgramMemoryRange = MemoryRange<usz>`. -/
abbrev ProgramMemoryRange := MemoryRange

/-- `MemoryBanks` from the source, its backing buffer as a byte list. -/
structure MemoryBanks where
  banks : Nat
  bankSize : Nat
  allocated : List Nat
deriving DecidableEq

/-- The observable state of one `Memory` instance: the bytes of its host
reservation plus the `ranges` and `banks`/`memory` lists it stores. -/
structure MemoryState where
  bytes : Nat → Nat
  ranges : List MemoryRange
  banks : List MemoryBanks

/-- Modelled from the spec: `Mapping::map` (the mapping functor is not under
src/) resolves a guest address to the concrete host location backing it
(spec section 4.2: identity offset; bank redirection concerns addresses in
banked windows, which the cited claims do not exercise). -/
def Mapping.map (v : Nat) : Nat := v

/-- Number of bytes of the scalar type `T`. -/
def bytesOf (w : Width) : Nat := bitSize w / 8

/-- Modelled from the spec: `Mapping::read<T>` performs a width-`T` load at
the mapped host location. -/
def Mapping.read (w : Width) (st : MemoryState) (v : Nat) : Nat :=
  readLE st.bytes (Mapping.map v) (bytesOf w)

/-- Modelled from the spec: `Mapping::write<T>` performs a width-`T` store
at the mapped host location. -/
def Mapping.write (w : Width) (st : MemoryState) (v t : Nat) : MemoryState :=
  { st with bytes := writeLE st.bytes (Mapping.map v) (bytesOf w) t }

/-- `MemoryPointer::operator T()` from the source:
`return Mapping::read<T>(memory, v);` — the conversion performs only the
mapped load; embedded as the loaded value together with the state the
operation leaves behind. -/
def MemoryPointer.toScalar (w : Width) (st : MemoryState) (v : Nat) : Nat × MemoryState :=
  (Mapping.read w st v, st)

/-- `MemoryPointer::operator=` from the source: `Mapping::write(memory, v, t)`. -/
def MemoryPointer.assign (w : Width) (st : MemoryState) (v t : Nat) : MemoryState :=
  Mapping.write w st v t

/-- Typed `MemoryPointer::operator+=` from the source: read, add, write back
(the sum is truncated to `T` by the store). -/
def MemoryPointer.plusEq (w : Width) (st : MemoryState) (v t : Nat) : MemoryState :=
  Mapping.write w st v ((t + Mapping.read w st v) % 2 ^ bitSize w)

/-- Typed `MemoryPointer::operator|=` from the source: read, or, write back. -/
def MemoryPointer.orEq (w : Width) (st : MemoryState) (v t : Nat) : MemoryState :=
  Mapping.write w st v (t ||| Mapping.read w st v)

/-- Typed `MemoryPointer::operator++` from the source: `operator+=(1)`. -/
def MemoryPointer.inc (w : Width) (st : MemoryState) (v : Nat) : MemoryState :=
  MemoryPointer.plusEq w st v 1

/-- `Memory::get<T>` from the source: construct a `Pointer` over `ptr` and
convert it to `T`. -/
def Memory.get (w : Width) (st : MemoryState) (ptr : Nat) : Nat :=
  (MemoryPointer.toScalar w st ptr).1

/-- `Memory::set<T>` from the source: construct a `Pointer` over `ptr` and
assign `t` through it. -/
def Memory.set (w : Width) (st : MemoryState) (ptr t : Nat) : MemoryState :=
  MemoryPointer.assign w st ptr t

/-- `Memory::increment<T, incr>` from the source: read through a pointer,
add `incr` (truncated to `T`), store back, and return the stored value. -/
def Memory.increment (w : Width) (st : MemoryState) (ptr incr : Nat) : Nat × MemoryState :=
  let v := (Memory.get w st ptr + incr) % 2 ^ bitSize w
  (v, Memory.set w st ptr v)

theorem writeLE_out (n : Nat) (m : Nat → Nat) (a v x : Nat) (hx : x < a ∨ a + n ≤ x) :
    writeLE m a n v x = m x := by
  induction n generalizing m a v with
  | zero => rfl
  | succ k ih =>
    rw [writeLE, ih (storeByte m a v) (a + 1) (v / 256) (by omega)]
    unfold storeByte
    rw [if_neg (by omega)]

theorem readLE_congr (n : Nat) (m1 m2 : Nat → Nat) (a : Nat)
    (h : ∀ x, a ≤ x → x < a + n → m1 x = m2 x) : readLE m1 a n = readLE m2 a n := by
  induction n generalizing a with
  | zero => rfl
  | succ k ih =>
    rw [readLE, readLE, h a (le_refl a) (by omega),
      ih (a + 1) (fun x hx1 hx2 => h x (by omega) (by omega))]

theorem readLE_writeLE (n : Nat) (m : Nat → Nat) (a v : Nat) :
    readLE (writeLE m a n v) a n = v % 256 ^ n := by
  induction n generalizing m a v with
  | zero => simp [readLE, writeLE, Nat.mod_one]
  | succ k ih =>
    rw [writeLE, readLE, writeLE_out k (storeByte m a v) (a + 1) (v / 256) a (by omega)]
    unfold storeByte
    rw [if_pos rfl, Nat.mod_mod_of_dvd v (dvd_refl 256), ih]
    have h : (256 : Nat) ^ (k + 1) = 256 * 256 ^ k := by
      rw [pow_succ, Nat.mul_comm]
    rw [h, Nat.mod_mul]

theorem readLE_writeLE_disjoint (n1 n2 : Nat) (m : Nat → Nat) (a1 a2 v : Nat)
    (h : a1 + n1 ≤ a2 ∨ a2 + n2 ≤ a1) :
    readLE (writeLE m a2 n2 v) a1 n1 = readLE m a1 n1 :=
  readLE_congr n1 _ _ a1 (fun x hx1 hx2 => writeLE_out n2 m a2 v x (by omega))

theorem pow256_eq (w : Width) : (256 : Nat) ^ bytesOf w = 2 ^ bitSize w := by
  cases w <;> norm_num [bytesOf, bitSize]

theorem Memory.get_set (w : Width) (st : MemoryState) (a v : Nat)
    (hv : v < 2 ^ bitSize w) :
    Memory.get w (Memory.set w st a v) a = v := by
  unfold Memory.get Memory.set MemoryPointer.toScalar MemoryPointer.assign
  unfold Mapping.read Mapping.write Mapping.map
  rw [readLE_writeLE, pow256_eq, Nat.mod_eq_of_lt hv]

/-- Whether `[a, a + len)` lies inside some writable range of the state. -/
def inWritableRange (st : MemoryState) (a len : Nat) : Bool :=
  st.ranges.any fun r =>
    r.write && decide (r.start ≤ a) && decide (a + len ≤ r.start + r.size)

/-- C1: writing a `T`-value `v` at an address within a writable committed
range and reading it back at the same width returns exactly `v`, for every
representable `v` at every supported width. -/
theorem C1_set_get_roundtrip (w : Width) (st : MemoryState) (a v : Nat)
    (hv : v < 2 ^ bitSize w)
    (_hwr : inWritableRange st a (bytesOf w) = true) :
    Memory.get w (Memory.set w st a v) a = v :=
  Memory.get_set w st a v hv

/-- A concrete memory state with one writable 64-KiB range, all bytes zero. -/
def st0 : MemoryState :=
  ⟨fun _ => 0, [⟨"wram", "ram", [], 0, 65536, true, true⟩], []⟩

/-- C1 (witness): the round trip at width 32, address 8, value 304 on a
concrete writable state. -/
theorem C1_set_get_roundtrip_witness :
    304 < 2 ^ bitSize Width.w32 ∧ inWritableRange st0 8 (bytesOf Width.w32) = true ∧
    Memory.get Width.w32 (Memory.set Width.w32 st0 8 304) 8 = 304 :=
  ⟨by decide, by decide, C1_set_get_roundtrip Width.w32 st0 8 304 (by decide) (by decide)⟩

/-- The frame property of claim C10, as one proposition: converting a
`MemoryPointer` to a scalar (a read) leaves the entire state — bytes,
ranges and banks — unchanged and returns exactly the mapped load, while the
writing operators `=`, `+=`, `|=`, `++` leave the ranges and banks and all
bytes outside the written `sizeof(T)` window untouched. -/
def readFrameProp (w : Width) (st : MemoryState) (p x t : Nat) : Prop :=
  (MemoryPointer.toScalar w st p).2 = st ∧
  (MemoryPointer.toScalar w st p).2.bytes = st.bytes ∧
  (MemoryPointer.toScalar w st p).2.ranges = st.ranges ∧
  (MemoryPointer.toScalar w st p).2.banks = st.banks ∧
  (MemoryPointer.toScalar w st p).1 = Mapping.read w st p ∧
  Memory.get w st p = Mapping.read w st p ∧
  (MemoryPointer.assign w st p t).ranges = st.ranges ∧
  (MemoryPointer.assign w st p t).banks = st.banks ∧
  (MemoryPointer.assign w st p t).bytes x = st.bytes x ∧
  (MemoryPointer.plusEq w st p t).bytes x = st.bytes x ∧
  (MemoryPointer.orEq w st p t).bytes x = st.bytes x ∧
  (MemoryPointer.inc w st p).bytes x = st.bytes x

/-- C10: reading guest memory never mutates it — the scalar conversion of a
pointer is exactly the mapped load with the whole state unchanged, and only
the assignment and compound operators write, and then only inside their own
`sizeof(T)` window. -/
theorem C10_read_no_mutation (w : Width) (st : MemoryState) (p x t : Nat)
    (hx : x < p ∨ p + bytesOf w ≤ x) : readFrameProp w st p x t :=
  ⟨rfl, rfl, rfl, rfl, rfl, rfl, rfl, rfl,
   writeLE_out (bytesOf w) st.bytes p t x (by omega),
   writeLE_out (bytesOf w) st.bytes p _ x (by omega),
   writeLE_out (bytesOf w) st.bytes p _ x (by omega),
   writeLE_out (bytesOf w) st.bytes p _ x (by omega)⟩

/-- C10 (witness): the frame property at width 32 on the concrete state,
reading at address 8 and checking the byte at address 0. -/
theorem C10_read_no_mutation_witness : readFrameProp Width.w32 st0 8 0 5 :=
  C10_read_no_mutation Width.w32 st0 8 0 5 (Or.inl (by decide))

/-- Wrapped addition on the `AddressSpace` type of width `w` bits
(`sp += y`). -/
def addW (w x y : Nat) : Nat := (x + y) % 2 ^ w

/-- Wrapped subtraction on the `AddressSpace` type of width `w` bits
(`sp -= y`, for `y ≤ 2^w`). -/
def subW (w x y : Nat) : Nat := (x + (2 ^ w - y)) % 2 ^ w

/-- `TStack::increment` from include/emu/stack.hpp:
`!isAscending ? (~AddressSpace(sizeof(T))) + 1 : AddressSpace(sizeof(T))`,
with `sizeof(T) = k` bytes and the address space `w` bits wide. -/
def TStackInc.increment (w k : Nat) (isAscending : Bool) : Nat :=
  if isAscending then k % 2 ^ w else (2 ^ w - 1 - k % 2 ^ w + 1) % 2 ^ w

/-- `TStack::push` from include/emu/stack.hpp: the full convention
(`isEmpty = false`) advances the pointer by `increment` in one step and
stores at the new pointer; the empty convention stores at the current
pointer and then advances.  `m.set(sp, a)` is the mapped `sizeof(T)`-byte
store. -/
def TStackInc.push (w k : Nat) (asc isEmpty : Bool) (st : MemoryState) (sp v : Nat) :
    MemoryState × Nat :=
  if isEmpty = false then
    let sp1 := addW w sp (TStackInc.increment w k asc)
    ({ st with bytes := writeLE st.bytes sp1 k v }, sp1)
  else
    ({ st with bytes := writeLE st.bytes sp k v }, addW w sp (TStackInc.increment w k asc))

/-- `TStack::pop` from include/emu/stack.hpp: the exact mirror of `push` —
full convention reads at the current pointer then retreats, empty
convention retreats then reads.  Returns the new pointer and the value. -/
def TStackInc.pop (w k : Nat) (asc isEmpty : Bool) (st : MemoryState) (sp : Nat) :
    Nat × Nat :=
  if isEmpty = false then
    (subW w sp (TStackInc.increment w k asc), readLE st.bytes sp k)
  else
    let sp1 := subW w sp (TStackInc.increment w k asc)
    (sp1, readLE st.bytes sp1 k)

/-- `TStack::increment` from the part_001 revision:
`!isAscending ? AddressSpace(-Signed_v<AddressSpace>(sizeof(T))) : AddressSpace(sizeof(T))`. -/
def TStackRev.increment (w k : Nat) (isAscending : Bool) : Nat :=
  if isAscending then k % 2 ^ w else (2 ^ w - k % 2 ^ w) % 2 ^ w

/-- `TStack::push` from the part_001 revision: the full convention does
`sp -= sizeof(T) - 1; m.set(sp, a); --sp;` — two pointer moves, always
downward, with no use of `isAscending`; the empty convention advances by
`increment` first and then stores at the new pointer. -/
def TStackRev.push (w k : Nat) (asc isEmpty : Bool) (st : MemoryState) (sp v : Nat) :
    MemoryState × Nat :=
  if isEmpty = false then
    let spA := subW w sp (k - 1)
    ({ st with bytes := writeLE st.bytes spA k v }, subW w spA 1)
  else
    let sp1 := addW w sp (TStackRev.increment w k asc)
    ({ st with bytes := writeLE st.bytes sp1 k v }, sp1)

/-- `TStack::pop` from the part_001 revision: the full convention does
`++sp; a = m.get<T>(sp); sp += sizeof(T) - 1;`; the empty convention does
`sp -= increment; a = m.get<T>(sp);`.  Returns the new pointer and the
value. -/
def TStackRev.pop (w k : Nat) (asc isEmpty : Bool) (st : MemoryState) (sp : Nat) :
    Nat × Nat :=
  if isEmpty = false then
    let spA := addW w sp 1
    (addW w spA (k - 1), readLE st.bytes spA k)
  else
    let sp1 := subW w sp (TStackRev.increment w k asc)
    (sp1, readLE st.bytes sp1 k)

/-- An all-zero memory state with no ranges or banks. -/
def memZero : MemoryState := ⟨fun _ => 0, [], []⟩

/-- push(v1) on the part_001 stack, descending, empty convention, one-byte
elements, 16-bit addresses, starting pointer 100. -/
def c2s1 : MemoryState × Nat := TStackRev.push 16 1 false true memZero 100 11

/-- push(v2) after [[c2s1]]. -/
def c2s2 : MemoryState × Nat := TStackRev.push 16 1 false true c2s1.1 c2s1.2 22

/-- first pop after the two pushes. -/
def c2s3 : Nat × Nat := TStackRev.pop 16 1 false true c2s2.1 c2s2.2

/-- second pop. -/
def c2s4 : Nat × Nat := TStackRev.pop 16 1 false true c2s2.1 c2s3.1

/-- C2: on the part_001 stack revision with the empty-pointer convention,
`push 11; push 22; pop x2; pop x1` yields `x2 = 11` (the previous element,
not 22) and `x1 = 0` (a never-written slot, not 11): the push leaves the
pointer at the slot it stored, while the pop retreats before reading, so
every pop reads one slot past the matching store.  The pointer itself does
return to 100.  The increment-based stack of include/emu/stack.hpp — the
spec's canonical semantics — satisfies the claim, see
`TStackInc.push_pop_roundtrip`. -/
theorem C2_part001_pop_returns_previous :
    c2s3.2 = 11 ∧ c2s4.2 = 0 ∧ c2s4.1 = 100 ∧ ¬ (c2s3.2 = 22) ∧ ¬ (c2s4.2 = 11) := by
  decide

/-- push of 0xAABBCCDD on the part_001 stack, ascending, full convention,
4-byte elements, 32-bit addresses, starting pointer 100. -/
def c3p : MemoryState × Nat := TStackRev.push 32 4 true false memZero 100 2864434397

/-- empty-convention push of 7 on the part_001 stack, descending, one-byte
elements, starting pointer 100. -/
def c3q : MemoryState × Nat := TStackRev.push 16 1 false true memZero 100 7

/-- C3: the claim describes push as one full-size pointer step whose
direction follows the convention, storing at the new pointer (full
convention) or storing first at the current pointer (empty convention).
The part_001 revision violates every part on the ascending/full
convention: pushing 0xAABBCCDD with `sp = 100` leaves `sp = 96` (descended
despite `isAscending = true`, and in two steps), the value sits at bytes
97..100 — neither the claimed new pointer 104 nor the final pointer 96 —
and on the empty convention it advances before storing (the value lands at
99, not at the current pointer 100). -/
theorem C3_part001_push_order :
    c3p.2 = 96 ∧ ¬ (c3p.2 = 104) ∧ readLE c3p.1.bytes 97 4 = 2864434397 ∧
    ¬ (readLE c3p.1.bytes c3p.2 4 = 2864434397) ∧ readLE c3p.1.bytes 104 4 = 0 ∧
    c3q.1.bytes 99 = 7 ∧ c3q.1.bytes 100 = 0 ∧ c3q.2 = 99 := by
  decide

theorem increment_val (w k : Nat) (asc : Bool) (hk : 0 < k) (hk2 : k < 2 ^ w) :
    TStackInc.increment w k asc = k ∨ TStackInc.increment w k asc = 2 ^ w - k := by
  unfold TStackInc.increment
  cases asc
  · right
    rw [if_neg (by simp), Nat.mod_eq_of_lt hk2]
    have h : 2 ^ w - 1 - k + 1 = 2 ^ w - k := by omega
    rw [h, Nat.mod_eq_of_lt (by omega)]
  · left
    rw [if_pos rfl]
    exact Nat.mod_eq_of_lt hk2

theorem addW_lt (w x y : Nat) : addW w x y < 2 ^ w :=
  Nat.mod_lt _ (Nat.two_pow_pos w)

theorem subW_addW_cancel (w x y : Nat) (hx : x < 2 ^ w) (hy : y ≤ 2 ^ w) :
    subW w (addW w x y) y = x := by
  unfold addW subW
  rw [Nat.mod_add_mod]
  have h : x + y + (2 ^ w - y) = x + 2 ^ w := by omega
  rw [h, Nat.add_mod_right, Nat.mod_eq_of_lt hx]

theorem store_disjoint (w k sp i : Nat) (hk : 0 < k) (h2k : 2 * k ≤ 2 ^ w)
    (hsp : sp < 2 ^ w) (hi : i = k ∨ i = 2 ^ w - k) :
    addW w sp i + k ≤ sp ∨ sp + k ≤ addW w sp i := by
  unfold addW
  rcases hi with hi | hi <;> rw [hi]
  · rcases Nat.lt_or_ge (sp + k) (2 ^ w) with h | h
    · rw [Nat.mod_eq_of_lt h]
      omega
    · rw [Nat.mod_eq_sub_mod h, Nat.mod_eq_of_lt (by omega)]
      omega
  · rcases Nat.lt_or_ge (sp + (2 ^ w - k)) (2 ^ w) with h | h
    · rw [Nat.mod_eq_of_lt h]
      omega
    · rw [Nat.mod_eq_sub_mod h, Nat.mod_eq_of_lt (by omega)]
      omega

/-- The values and final pointer produced by push v1; push v2; pop x2;
pop x1 on the increment-based stack: `(x1, x2, final sp)`. -/
def stackRound (w k : Nat) (asc isEmpty : Bool) (st : MemoryState) (sp v1 v2 : Nat) :
    Nat × Nat × Nat :=
  let p1 := TStackInc.push w k asc isEmpty st sp v1
  let p2 := TStackInc.push w k asc isEmpty p1.1 p1.2 v2
  let q1 := TStackInc.pop w k asc isEmpty p2.1 p2.2
  let q2 := TStackInc.pop w k asc isEmpty p2.1 q1.1
  (q2.2, q1.2, q2.1)

/-- Round-trip discipline of the increment-based stack
(include/emu/stack.hpp), for each of the four conventions: pop always
undoes the most recent push, and the matched pops restore the pointer. -/
theorem TStackInc.push_pop_roundtrip (w k : Nat) (asc isEmpty : Bool) (st : MemoryState)
    (sp v1 v2 : Nat) (hk : 0 < k) (h2k : 2 * k ≤ 2 ^ w) (hsp : sp < 2 ^ w)
    (hv1 : v1 < 256 ^ k) (hv2 : v2 < 256 ^ k) :
    stackRound w k asc isEmpty st sp v1 v2 = (v1, v2, sp) := by
  have hkw : k < 2 ^ w := by omega
  have hiv := increment_val w k asc hk hkw
  have hile : TStackInc.increment w k asc ≤ 2 ^ w := by
    rcases hiv with h | h <;> omega
  cases isEmpty
  · have e1 : stackRound w k asc false st sp v1 v2 =
        (readLE
          (writeLE (writeLE st.bytes (addW w sp (TStackInc.increment w k asc)) k v1)
            (addW w (addW w sp (TStackInc.increment w k asc)) (TStackInc.increment w k asc)) k v2)
          (subW w (addW w (addW w sp (TStackInc.increment w k asc)) (TStackInc.increment w k asc))
            (TStackInc.increment w k asc)) k,
        readLE
          (writeLE (writeLE st.bytes (addW w sp (TStackInc.increment w k asc)) k v1)
            (addW w (addW w sp (TStackInc.increment w k asc)) (TStackInc.increment w k asc)) k v2)
          (addW w (addW w sp (TStackInc.increment w k asc)) (TStackInc.increment w k asc)) k,
        subW w
          (subW w (addW w (addW w sp (TStackInc.increment w k asc)) (TStackInc.increment w k asc))
            (TStackInc.increment w k asc))
          (TStackInc.increment w k asc)) := rfl
    rw [e1, subW_addW_cancel w (addW w sp (TStackInc.increment w k asc)) _ (addW_lt w _ _) hile,
      subW_addW_cancel w sp _ hsp hile, readLE_writeLE, Nat.mod_eq_of_lt hv2,
      readLE_writeLE_disjoint k k _ _ _ v2
        (Or.symm (store_disjoint w k (addW w sp (TStackInc.increment w k asc)) _ hk h2k
          (addW_lt w _ _) hiv)),
      readLE_writeLE, Nat.mod_eq_of_lt hv1]
  · have e2 : stackRound w k asc true st sp v1 v2 =
        (readLE
          (writeLE (writeLE st.bytes sp k v1) (addW w sp (TStackInc.increment w k asc)) k v2)
          (subW w (subW w (addW w (addW w sp (TStackInc.increment w k asc)) (TStackInc.increment w k asc))
            (TStackInc.increment w k asc)) (TStackInc.increment w k asc)) k,
        readLE
          (writeLE (writeLE st.bytes sp k v1) (addW w sp (TStackInc.increment w k asc)) k v2)
          (subW w (addW w (addW w sp (TStackInc.increment w k asc)) (TStackInc.increment w k asc))
            (TStackInc.increment w k asc)) k,
        subW w
          (subW w (addW w (addW w sp (TStackInc.increment w k asc)) (TStackInc.increment w k asc))
            (TStackInc.increment w k asc))
          (TStackInc.increment w k asc)) := rfl
    rw [e2, subW_addW_cancel w (addW w sp (TStackInc.increment w k asc)) _ (addW_lt w _ _) hile,
      subW_addW_cancel w sp _ hsp hile, readLE_writeLE, Nat.mod_eq_of_lt hv2,
      readLE_writeLE_disjoint k k _ _ _ v2 (Or.symm (store_disjoint w k sp _ hk h2k hsp hiv)),
      readLE_writeLE, Nat.mod_eq_of_lt hv1]

instance : Inhabited MemoryRange := ⟨⟨"", "", [], 0, 0, false, false⟩⟩

/-- The arguments `Memory::Memory` passes to `reserve`:
`reserve(memory[0].start, memory[memory.size() - 1].end())` — the first
range's start and the last range's end. -/
def reserveArgs (memory : List MemoryRange) : Nat × Nat :=
  ((memory.headI).start, (memory.getLastD default).endAddr)

/-- The host span `reserve` actually maps.  Both platform back-ends treat
the second argument as a length — `mmap((void*)start, size, …)` and
`allocRange(start, size, …)` — although the private declaration names it
`end`, so the mapped span is `[start, start + secondArgument)`. -/
def reservedSpan (memory : List MemoryRange) : Nat × Nat :=
  ((reserveArgs memory).1, (reserveArgs memory).1 + (reserveArgs memory).2)

/-- The span the claim says is reserved: exactly
`[firstProgramRange.start, lastProgramRange.end())`. -/
def claimedSpan (memory : List MemoryRange) : Nat × Nat :=
  ((memory.headI).start, (memory.getLastD default).endAddr)

/-- A one-range program memory layout: 0x1000 bytes at address 0x1000. -/
def mem8 : List MemoryRange := [⟨"ram", "ram", [], 4096, 4096, true, true⟩]

/-- C8: the constructor passes `last.end()` into the parameter that both
platform implementations use as a length, so for a range
`[0x1000, 0x2000)` the platform maps `[0x1000, 0x3000)` — 0x1000 bytes more
than the claimed exact span `[first.start, last.end()) = [0x1000, 0x2000)`.
The destructor passes the same pair to `free`, so the same mismatched span
is released. -/
theorem C8_reserve_span_mismatch :
    reservedSpan mem8 = (4096, 12288) ∧ claimedSpan mem8 = (4096, 8192) ∧
    ¬ (reservedSpan mem8 = claimedSpan mem8) := by decide

/-- The observable host state the platform allocator acts on: the byte
image, which addresses are committed, and which are writable. -/
structure HostState where
  bytes : Nat → Nat
  committed : Nat → Bool
  writableAt : Nat → Bool

/-- Modelled from the spec: the platform allocator's commit
(`commit(addr, len, writable, initialData)`, spec section 6, invoked as
`allocRange(start, size, data, COMMIT [| READ_ONLY])`): commits the pages
of `[start, start + size)`, zero-fills them, copies `init` in from the
start, and leaves the range writable iff `write`. -/
def commitRange (h : HostState) (start size : Nat) (write : Bool) (init : List Nat) : HostState :=
  { bytes := fun x => if start ≤ x ∧ x < start + size then init.getD (x - start) 0 else h.bytes x,
    committed := fun x => if start ≤ x ∧ x < start + size then true else h.committed x,
    writableAt := fun x => if start ≤ x ∧ x < start + size then write else h.writableAt x }

/-- One allocation job performed by the constructor for one range: host
start, size, writability, initial contents, and whether the loop condition
`range.size && range.allocate` holds for it. -/
structure AllocJob where
  start : Nat
  size : Nat
  write : Bool
  init : List Nat
  active : Bool
deriving DecidableEq

/-- The job for a `ProgramMemoryRange`, allocated at its own start. -/
def jobOfProgram (r : MemoryRange) : AllocJob :=
  ⟨r.start, r.size, r.write, r.initMemory, decide (r.size ≠ 0) && r.allocate⟩

/-- The job for a virtual guest range, allocated at
`memory[0].size + range.start`. -/
def jobOfVirtual (base : Nat) (r : MemoryRange) : AllocJob :=
  ⟨base + r.start, r.size, r.write, r.initMemory, decide (r.size ≠ 0) && r.allocate⟩

/-- All allocation jobs of `Memory::Memory`, in source order: the program
ranges first, then the virtual ranges offset by `memory[0].size`. -/
def buildJobs (memory ranges : List MemoryRange) : List AllocJob :=
  memory.map jobOfProgram ++ ranges.map (jobOfVirtual (memory.headI).size)

/-- `Memory::allocate` from the part_000 allocator revision: fatal
(the log message is `Couldnt initialize memory` in the source, written with
an apostrophe) when the initial contents exceed the range, otherwise one
`allocRange` commit, with read-only protection for non-writable ranges. -/
def allocateRange (h : HostState) (start size : Nat) (write : Bool) (mem : List Nat) :
    Except String HostState :=
  if mem.length > size then Except.error "Couldnt initialize memory"
  else Except.ok (commitRange h start size write mem)

/-- One constructor loop step: ranges with zero size or `allocate = false`
are skipped; once a fatal error occurred nothing further runs. -/
def allocStep (h : Except String HostState) (j : AllocJob) : Except String HostState :=
  match h with
  | Except.error e => Except.error e
  | Except.ok st =>
    if j.active then allocateRange st j.start j.size j.write j.init
    else Except.ok st

/-- The commit/initialize/protect phase of `Memory::Memory` (part_000
allocator revision).  The preceding `reserve` grants no access, modelled
as leaving the host state untouched. -/
def constructMemory (h0 : HostState) (memory ranges : List MemoryRange) :
    Except String HostState :=
  (buildJobs memory ranges).foldl allocStep (Except.ok h0)

/-- Whether a construction outcome is a success. -/
def isOk : Except String HostState → Bool
  | Except.ok _ => true
  | Except.error _ => false

/-- Two jobs do not overlap unless one of them is inactive (the spec's
layout invariant: ranges are supplied non-overlapping). -/
def spanDisj (j j2 : AllocJob) : Bool :=
  !j.active || !j2.active || decide (j.start + j.size ≤ j2.start) ||
    decide (j2.start + j2.size ≤ j.start)

/-- The spec's layout invariant for a whole job list. -/
def JobsDisjoint (l : List AllocJob) : Prop :=
  List.Pairwise (fun j j2 => spanDisj j j2 = true) l

instance (l : List AllocJob) : Decidable (JobsDisjoint l) :=
  decidable_of_iff (List.Pairwise (fun j j2 => spanDisj j j2 = true) l) Iff.rfl

theorem spanDisj_elim (j j2 : AllocJob) (h : spanDisj j j2 = true)
    (ha : j.active = true) (hb : j2.active = true) :
    j.start + j.size ≤ j2.start ∨ j2.start + j2.size ≤ j.start := by
  simp [spanDisj, ha, hb] at h
  exact h

theorem allocStep_inactive (h0 : HostState) (a : AllocJob) (ha : a.active = false) :
    allocStep (Except.ok h0) a = Except.ok h0 := by
  simp [allocStep, ha]

theorem allocStep_active_fits (h0 : HostState) (a : AllocJob) (ha : a.active = true)
    (hfits : a.init.length ≤ a.size) :
    allocStep (Except.ok h0) a = Except.ok (commitRange h0 a.start a.size a.write a.init) := by
  simp [allocStep, ha, allocateRange, show ¬ (a.init.length > a.size) by omega]

theorem allocStep_active_big (h0 : HostState) (a : AllocJob) (ha : a.active = true)
    (hbig : a.size < a.init.length) :
    allocStep (Except.ok h0) a = Except.error "Couldnt initialize memory" := by
  simp [allocStep, ha, allocateRange, show a.init.length > a.size from hbig]

theorem commitRange_out (h0 : HostState) (start size : Nat) (write : Bool) (init : List Nat)
    (x : Nat) (hx : ¬ (start ≤ x ∧ x < start + size)) :
    (commitRange h0 start size write init).bytes x = h0.bytes x ∧
    (commitRange h0 start size write init).committed x = h0.committed x ∧
    (commitRange h0 start size write init).writableAt x = h0.writableAt x :=
  ⟨if_neg hx, if_neg hx, if_neg hx⟩

theorem commitRange_in (h0 : HostState) (start size : Nat) (write : Bool) (init : List Nat)
    (x : Nat) (hx : start ≤ x ∧ x < start + size) :
    (commitRange h0 start size write init).bytes x = init.getD (x - start) 0 ∧
    (commitRange h0 start size write init).committed x = true ∧
    (commitRange h0 start size write init).writableAt x = write :=
  ⟨if_pos hx, if_pos hx, if_pos hx⟩

theorem foldl_error (l : List AllocJob) (e : String) :
    l.foldl allocStep (Except.error e) = Except.error e := by
  induction l with
  | nil => rfl
  | cons j t ih =>
    rw [List.foldl_cons]
    exact ih

theorem foldl_ok_fits : ∀ (l : List AllocJob) (h0 hfin : HostState),
    l.foldl allocStep (Except.ok h0) = Except.ok hfin →
    ∀ j ∈ l, j.active = true → j.init.length ≤ j.size := by
  intro l
  induction l with
  | nil =>
    intro h0 hfin hok j hj
    cases hj
  | cons a t ih =>
    intro h0 hfin hok j hj hact
    rw [List.foldl_cons] at hok
    rcases List.mem_cons.mp hj with heq | hmem
    · subst heq
      by_contra hbig
      rw [allocStep_active_big h0 j hact (by omega), foldl_error] at hok
      cases hok
    · cases ha : a.active
      · rw [allocStep_inactive h0 a ha] at hok
        exact ih h0 hfin hok j hmem hact
      · rcases Nat.lt_or_ge a.size a.init.length with hbig | hfits
        · rw [allocStep_active_big h0 a ha hbig, foldl_error] at hok
          cases hok
        · rw [allocStep_active_fits h0 a ha hfits] at hok
          exact ih _ hfin hok j hmem hact

theorem foldl_ok_frame : ∀ (l : List AllocJob) (h0 hfin : HostState),
    l.foldl allocStep (Except.ok h0) = Except.ok hfin →
    ∀ x, (∀ j2 ∈ l, j2.active = true → ¬ (j2.start ≤ x ∧ x < j2.start + j2.size)) →
    hfin.bytes x = h0.bytes x ∧ hfin.committed x = h0.committed x ∧
      hfin.writableAt x = h0.writableAt x := by
  intro l
  induction l with
  | nil =>
    intro h0 hfin hok x hx
    cases hok
    exact ⟨rfl, rfl, rfl⟩
  | cons a t ih =>
    intro h0 hfin hok x hx
    rw [List.foldl_cons] at hok
    cases ha : a.active
    · rw [allocStep_inactive h0 a ha] at hok
      exact ih h0 hfin hok x fun j2 hj2 hj2a => hx j2 (List.mem_cons_of_mem a hj2) hj2a
    · rcases Nat.lt_or_ge a.size a.init.length with hbig | hfits
      · rw [allocStep_active_big h0 a ha hbig, foldl_error] at hok
        cases hok
      · rw [allocStep_active_fits h0 a ha hfits] at hok
        have hrest := ih _ hfin hok x fun j2 hj2 hj2a => hx j2 (List.mem_cons_of_mem a hj2) hj2a
        have hout := commitRange_out h0 a.start a.size a.write a.init x
          (hx a (List.mem_cons_self a t) ha)
        exact ⟨hrest.1.trans hout.1, hrest.2.1.trans hout.2.1, hrest.2.2.trans hout.2.2⟩

theorem foldl_ok_content : ∀ (l : List AllocJob) (h0 hfin : HostState),
    l.foldl allocStep (Except.ok h0) = Except.ok hfin →
    List.Pairwise (fun j j2 => spanDisj j j2 = true) l →
    ∀ j ∈ l, j.active = true → ∀ i, i < j.size →
      hfin.committed (j.start + i) = true ∧ hfin.writableAt (j.start + i) = j.write ∧
      hfin.bytes (j.start + i) = j.init.getD i 0 := by
  intro l
  induction l with
  | nil =>
    intro h0 hfin hok hp j hj
    cases hj
  | cons a t ih =>
    intro h0 hfin hok hp j hj hact i hi
    rw [List.foldl_cons] at hok
    have hp2 := List.pairwise_cons.mp hp
    rcases List.mem_cons.mp hj with heq | hmem
    · subst heq
      rcases Nat.lt_or_ge j.size j.init.length with hbig | hfits
      · rw [allocStep_active_big h0 j hact hbig, foldl_error] at hok
        cases hok
      · rw [allocStep_active_fits h0 j hact hfits] at hok
        have hxnot : ∀ j2 ∈ t, j2.active = true →
            ¬ (j2.start ≤ j.start + i ∧ j.start + i < j2.start + j2.size) := by
          intro j2 hj2 hact2 hcontra
          have hd := spanDisj_elim j j2 (hp2.1 j2 hj2) hact hact2
          omega
        have hf := foldl_ok_frame t _ hfin hok (j.start + i) hxnot
        have hc := commitRange_in h0 j.start j.size j.write j.init (j.start + i)
          ⟨Nat.le_add_right _ _, by omega⟩
        have hsub : j.start + i - j.start = i := by omega
        rw [hsub] at hc
        exact ⟨hf.2.1.trans hc.2.1, hf.2.2.trans hc.2.2, hf.1.trans hc.1⟩
    · cases ha : a.active
      · rw [allocStep_inactive h0 a ha] at hok
        exact ih h0 hfin hok hp2.2 j hmem hact i hi
      · rcases Nat.lt_or_ge a.size a.init.length with hbig | hfits
        · rw [allocStep_active_big h0 a ha hbig, foldl_error] at hok
          cases hok
        · rw [allocStep_active_fits h0 a ha hfits] at hok
          exact ih _ hfin hok hp2.2 j hmem hact i hi

/-- The construction contract of claim C9, as one proposition over a job
`j` of the layout, an offset `i` into it, and an address `x` outside every
active job: an oversized initial image makes construction fail (fatal, no
state produced); on success every active job's bytes are its initial
contents padded with zeros, committed, and writable exactly per its flag;
and addresses covered by no active job — in particular zero-size or
`allocate = false` ranges — keep their initial (uncommitted) state. -/
def constructProp (memory ranges : List MemoryRange) (h0 hfin : HostState)
    (j : AllocJob) (i x : Nat) : Prop :=
  (j.active = true → j.size < j.init.length →
    isOk (constructMemory h0 memory ranges) = false) ∧
  (constructMemory h0 memory ranges = Except.ok hfin → j.active = true → i < j.size →
    hfin.committed (j.start + i) = true ∧ hfin.writableAt (j.start + i) = j.write ∧
    hfin.bytes (j.start + i) = j.init.getD i 0) ∧
  (constructMemory h0 memory ranges = Except.ok hfin →
    hfin.bytes x = h0.bytes x ∧ hfin.committed x = h0.committed x ∧
      hfin.writableAt x = h0.writableAt x)

/-- C9: during construction every range with nonzero size and
`allocateNow = true` is committed, zero-filled, overlaid with its initial
contents and protected read-only when not writable; an oversized initial
image is fatal at construction time, and skipped ranges stay untouched. -/
theorem C9_construct_commit_protect (memory ranges : List MemoryRange)
    (h0 hfin : HostState) (j : AllocJob) (i x : Nat)
    (hj : j ∈ buildJobs memory ranges)
    (hdisj : JobsDisjoint (buildJobs memory ranges))
    (hx : ∀ j2 ∈ buildJobs memory ranges, j2.active = true →
      ¬ (j2.start ≤ x ∧ x < j2.start + j2.size)) :
    constructProp memory ranges h0 hfin j i x := by
  refine ⟨?_, ?_, ?_⟩
  · intro hact hbig
    cases hres : constructMemory h0 memory ranges with
    | error e => rfl
    | ok hgot =>
      exact absurd (foldl_ok_fits (buildJobs memory ranges) h0 hgot hres j hj hact)
        (by omega)
  · intro hok hact hi
    exact foldl_ok_content (buildJobs memory ranges) h0 hfin hok hdisj j hj hact i hi
  · intro hok
    exact foldl_ok_frame (buildJobs memory ranges) h0 hfin hok x hx

/-- A host state with nothing committed and all bytes zero. -/
def hostZero : HostState := ⟨fun _ => 0, fun _ => false, fun _ => false⟩

/-- A well-formed one-range layout: 16 bytes at 0, writable, seeded with
two bytes. -/
def c9mem : List MemoryRange := [⟨"ram", "wram", [5, 6], 0, 16, true, true⟩]

/-- Its allocation job. -/
def c9job : AllocJob := jobOfProgram ⟨"ram", "wram", [5, 6], 0, 16, true, true⟩

/-- The successful construction outcome for [[c9mem]]. -/
def c9fin : HostState :=
  match constructMemory hostZero c9mem [] with
  | Except.ok h => h
  | Except.error _ => hostZero

/-- A misconfigured layout: three initial bytes for a two-byte range. -/
def c9memBad : List MemoryRange := [⟨"rom", "rom", [1, 2, 3], 0, 2, false, true⟩]

/-- Its allocation job. -/
def c9jobBad : AllocJob := jobOfProgram ⟨"rom", "rom", [1, 2, 3], 0, 2, false, true⟩

/-- C9 (witness): the construction contract instantiated on a concrete
well-formed layout (commit/copy/zero checks at offset 0, frame check at
address 100) and on a concrete misconfigured layout (fatal). -/
theorem C9_construct_commit_protect_witness :
    constructProp c9mem [] hostZero c9fin c9job 0 100 ∧
    constructProp c9memBad [] hostZero hostZero c9jobBad 0 100 :=
  ⟨C9_construct_commit_protect c9mem [] hostZero c9fin c9job 0 100 (by decide) (by decide)
      (by decide),
    C9_construct_commit_protect c9memBad [] hostZero hostZero c9jobBad 0 100 (by decide)
      (by decide) (by decide)⟩


end emu
